import Mathlib

/-!
# Verification of the `el` HTML serialization engine

A shallow embedding of the serialization/validation core of the `el`
library (files `check.rs`, `element.rs`, `render.rs`, `elements.rs`)
together with theorems settling the specification claims about it.

Strings are modelled by Lean `String`s; where the Rust code walks
`chars()` we walk `String.data` (the list of characters), which agrees
with Rust's iteration over Unicode scalar values.
-/

namespace El

/-! ## Data model (`element.rs`) -/

/-- `ElementKind` from `element.rs`. -/
inductive ElementKind where
  | Void
  | Template
  | RawText
  | EscapableRawText
  | Foreign
  | Normal
deriving DecidableEq, Repr

mutual
/-- `Content` from `element.rs`: one bit of element content. -/
inductive Content where
  | Raw (text : String)
  | Text (text : String)
  | Comment (text : String)
  | Element (element : Element)

/-- `Element` from `element.rs`: tag name, kind, attributes (the
`BTreeMap<String, String>` is modelled as an association list kept in
strictly increasing key order), children. -/
inductive Element where
  | mk (name : String) (kind : ElementKind) (attributes : List (String × String))
      (children : List Content)
end

/-- Projection: the tag name of an element. -/
def Element.name : Element → String
  | .mk n _ _ _ => n

/-- Projection: the kind of an element. -/
def Element.kind : Element → ElementKind
  | .mk _ k _ _ => k

/-- Projection: the attributes of an element. -/
def Element.attributes : Element → List (String × String)
  | .mk _ _ a _ => a

/-- Projection: the children of an element. -/
def Element.children : Element → List Content
  | .mk _ _ _ c => c

/-! ## Name validation (`check.rs`) -/

/-- `is_ascii_alpha` from `check.rs` (Rust `char::is_ascii_alphabetic`).
Lean's `Char.isAlpha` tests exactly ASCII `A`-`Z`/`a`-`z`. -/
def is_ascii_alpha (c : Char) : Bool :=
  c.isAlpha

/-- `is_ascii_alphanumeric` from `check.rs`. `Char.isAlphanum` tests
exactly ASCII letters and digits. -/
def is_ascii_alphanumeric (c : Char) : Bool :=
  c.isAlphanum

/-- `is_valid_tag_name` from `check.rs`: non-empty, first character an
ASCII letter, all characters ASCII alphanumeric. -/
def is_valid_tag_name (name : String) : Bool :=
  !name.data.isEmpty
    && (name.data.take 1).all is_ascii_alpha
    && name.data.all is_ascii_alphanumeric

/-- `is_valid_attribute_name` from `check.rs`: non-empty, first
character an ASCII letter, all characters ASCII alphanumeric, `-`
or `_`. -/
def is_valid_attribute_name (name : String) : Bool :=
  !name.data.isEmpty
    && (name.data.take 1).all is_ascii_alpha
    && name.data.all (fun c => is_ascii_alphanumeric c || c = '-' || c = '_')

/-- The delimiting characters of `is_valid_raw_text` in `check.rs`:
tab, LF, FF, CR, space, `>`, `/`. -/
def isRawTextDelim (c : Char) : Bool :=
  c = '\t' || c = '\n' || c = '\x0C' || c = '\r' || c = ' ' || c = '>' || c = '/'

/-- The body of the `is_valid_raw_text` loop in `check.rs` at one
occurrence of `"</"`: `after` is the text following the `"</"`.  The
candidate is the next `N` characters (`N` = character count of the tag
name); if its ASCII-lowercasing equals `tl` (the lowercased tag name)
and the character following it is a delimiter, the occurrence is a
closing tag and the text invalid (`false`).  If the candidate runs to
the end of the string (`head? = none`) the occurrence is skipped. -/
def checkOcc (tl : List Char) (N : Nat) (after : List Char) : Bool :=
  let cand := after.take N
  if cand.map Char.toLower = tl then
    match (after.drop cand.length).head? with
    | none => true
    | some c => !(isRawTextDelim c)
  else true

/-- The scan of `is_valid_raw_text` over the text, modelled by walking
every position: a position starts an occurrence of `"</"` iff its
character is `'<'` and the next one is `'/'` (occurrences of a
two-character pattern with distinct characters cannot overlap, so this
visits exactly the occurrences that `str::match_indices` yields). -/
def rawTextScan (tl : List Char) (N : Nat) : List Char → Bool
  | [] => true
  | c :: rest =>
      (if c = '<' ∧ rest.head? = some '/' then checkOcc tl N rest.tail else true)
        && rawTextScan tl N rest

/-- `is_valid_raw_text` from `check.rs`.  (The Rust function first
asserts that `tag_name` is ASCII; the computation after the assertion
is total and is what is modelled here.) -/
def is_valid_raw_text (tag_name text : String) : Bool :=
  rawTextScan (tag_name.data.map Char.toLower) tag_name.data.length text.data

/-! ## Error model (`render.rs`) -/

/-- `ErrorCause` from `render.rs`.  `Format` is a sink write failure;
a `String` sink never fails, so it carries no payload here. -/
inductive ErrorCause where
  | Format
  | InvalidTagName (name : String)
  | InvalidAttrName (name : String)
  | InvalidChild
  | InvalidRawText (text : String)
deriving DecidableEq, Repr

/-- `Error` from `render.rs`: the cause plus the reversed path of
segments accumulated while unwinding (`reverse_path: Vec<String>`). -/
structure Err where
  reversePath : List String
  cause : ErrorCause
deriving DecidableEq, Repr

/-- `Error::new` from `render.rs`. -/
def Err.new (cause : ErrorCause) : Err :=
  ⟨[], cause⟩

/-- The segment `Error::at` pushes for child `child` at index `index`:
`format!("{index}[{}]", el.name)` for an `Element` child, the bare
index otherwise. -/
def pathSegment (index : Nat) (child : Content) : String :=
  match child with
  | .Element el => toString index ++ "[" ++ el.name ++ "]"
  | _ => toString index

/-- `Error::at` from `render.rs`: push one segment onto the end of
`reverse_path` (Rust `Vec::push`). -/
def Err.at' (e : Err) (index : Nat) (child : Content) : Err :=
  { e with reversePath := e.reversePath ++ [pathSegment index child] }

/-- `Error::path` from `render.rs`: `"/"` when the reversed path is
empty, otherwise the stored segments in reverse order, each prefixed
with `"/"`.  (In the source, `path` formats its entries as
`index(tagname)` pairs, which is inconsistent with the preformatted
`String` segments that `Error::at` stores in `reverse_path`; the
composition modelled here keeps each stored segment as `at` built it.) -/
def Err.path (e : Err) : String :=
  if e.reversePath.isEmpty then "/"
  else String.join (e.reversePath.reverse.map (fun seg => "/" ++ seg))

/-! ## Escaping routines (`render.rs`) -/

/-- One character of `render_text` from `render.rs`: `&`, `<`, `>`
become entities, everything else passes through. -/
def escapeTextChar (c : Char) : String :=
  if c = '&' then "&amp;"
  else if c = '<' then "&lt;"
  else if c = '>' then "&gt;"
  else String.singleton c

/-- `render_text` from `render.rs`: escape each character of the text
independently. -/
def render_text (text : String) : String :=
  String.join (text.data.map escapeTextChar)

/-- One character of `render_attribute_value` from `render.rs`: only
`"` is escaped (to `&quot;`). -/
def escapeAttrChar (c : Char) : String :=
  if c = '"' then "&quot;" else String.singleton c

/-- `render_attribute_value` from `render.rs`: the value, with each
`"` replaced by `&quot;`, wrapped in double quotes. -/
def render_attribute_value (text : String) : String :=
  "\"" ++ String.join (text.data.map escapeAttrChar) ++ "\""

/-- Rust `str::replace`: replace every non-overlapping occurrence of
`pat`, scanning left to right and continuing after each replacement.
(Guarded on `pat ≠ []`; the patterns used by `render_comment` are all
non-empty.) -/
def replaceFrom (pat repl : List Char) (cs : List Char) : List Char :=
  match cs with
  | [] => []
  | c :: rest =>
      if h : pat ≠ [] ∧ pat.isPrefixOf (c :: rest) then
        repl ++ replaceFrom pat repl ((c :: rest).drop pat.length)
      else
        c :: replaceFrom pat repl rest
termination_by cs.length
decreasing_by
  · simp only [List.length_drop, List.length_cons]
    have hlen : 0 < pat.length := List.length_pos.mpr h.1
    omega
  · simp [Nat.lt_succ_self]

/-- Rust `str::replace` on `String`s. -/
def replaceAll (pat repl s : String) : String :=
  String.mk (replaceFrom pat.data repl.data s.data)

/-- The `starts_with(">") || starts_with("->")` test of
`render_comment`, on the character list. -/
def commentStartsBad (cs : List Char) : Bool :=
  cs.take 1 = ['>'] || cs.take 2 = ['-', '>']

/-- The `ends_with("<!-")` test of `render_comment`, on the character
list. -/
def commentEndsBad (cs : List Char) : Bool :=
  cs.reverse.take 3 = ['-', '!', '<']

/-- `render_comment` from `render.rs`: the in-order global replacements
`<!--`→`<!==`, `-->`→`==>`, `--!>`→`==!>`, then a space before the
result if it starts with `>` or `->` and a space after it if it ends
with `<!-`. -/
def render_comment (text : String) : String :=
  let t := replaceAll "--!>" "==!>" (replaceAll "-->" "==>" (replaceAll "<!--" "<!==" text))
  (if commentStartsBad t.data then " " else "") ++ t
    ++ (if commentEndsBad t.data then " " else "")

/-! ## The serialization engine (`render.rs`) -/

/-- One attribute in the opening tag: a space, the name, and --
only when the value is non-empty -- `=` followed by the escaped,
quoted value (`render.rs`, opening-tag loop). -/
def renderAttribute (name value : String) : String :=
  " " ++ name ++ (if value.data.isEmpty then "" else "=" ++ render_attribute_value value)

/-- The whole attribute part of the opening tag, in the order the
attribute list presents (for a tree built through the library this is
the `BTreeMap`'s sorted key order). -/
def renderAttrs (attrs : List (String × String)) : String :=
  String.join (attrs.map (fun p => renderAttribute p.1 p.2))

/-- The first attribute key failing `is_valid_attribute_name`, in list
order (the source iterates `attributes.keys()` in sorted order and
returns the first invalid one). -/
def firstInvalidAttr : List (String × String) → Option String
  | [] => none
  | (n, _) :: rest => if is_valid_attribute_name n then firstInvalidAttr rest else some n

/-- The result of one render call: the text written to the sink by the
call (including anything written before a failure), and the error if
the call failed. -/
abbrev RenderResult := String × Option Err

/-- The "closing early" forms of `impl Render for Element` when the
children are empty: `>` for `Void`, ` />` for `Foreign`, `></name>`
for every other kind. -/
def closeEmpty (kind : ElementKind) (name : String) : String :=
  match kind with
  | .Void => ">"
  | .Foreign => " />"
  | _ => "></" ++ name ++ ">"

/-- The closing tag written after the children: nothing for `Void`,
`</name>` for every other kind. -/
def closeTag (kind : ElementKind) (name : String) : String :=
  if kind = ElementKind.Void then "" else "</" ++ name ++ ">"

mutual
/-- `impl Render for Content` from `render.rs`. -/
def renderContent : Content → RenderResult
  | .Raw text => (text, none)
  | .Text text => (render_text text, none)
  | .Comment text => (render_comment text, none)
  | .Element element => renderElement element
termination_by c => sizeOf c

/-- `impl Render for Element` from `render.rs`: validate the tag name
and the attribute names, emit the opening tag, close early when there
are no children, otherwise process the children and emit the closing
tag unless the kind is `Void`. -/
def renderElement : Element → RenderResult
  | .mk name kind attrs children =>
    if is_valid_tag_name name then
      match firstInvalidAttr attrs with
      | some bad => ("", some (Err.new (.InvalidAttrName bad)))
      | none =>
        let opening := "<" ++ name ++ renderAttrs attrs
        if children.isEmpty then
          (opening ++ closeEmpty kind name, none)
        else
          match renderChildren name kind 0 children with
          | (body, some e) => (opening ++ ">" ++ body, some e)
          | (body, none) => (opening ++ ">" ++ body ++ closeTag kind name, none)
    else ("", some (Err.new (.InvalidTagName name)))
termination_by el => sizeOf el

/-- The per-child dispatch of the child loop of `impl Render for
Element`: `Void` rejects every child, `RawText` and
`EscapableRawText` restrict the content variants, all other kinds
render the child generically. -/
def renderChildOne (name : String) (kind : ElementKind) :
    Content → RenderResult :=
  fun child =>
    match kind, child with
    | .Void, _ => ("", some (Err.new .InvalidChild))
    | .RawText, .Raw t => (t, none)
    | .RawText, .Text t =>
        if is_valid_raw_text name t then (t, none)
        else ("", some (Err.new (.InvalidRawText t)))
    | .RawText, _ => ("", some (Err.new .InvalidChild))
    | .EscapableRawText, .Raw t => (t, none)
    | .EscapableRawText, .Text t => (render_text t, none)
    | .EscapableRawText, _ => ("", some (Err.new .InvalidChild))
    | _, c => renderContent c
termination_by child => sizeOf child + 1

/-- The child loop of `impl Render for Element`: an error at child `i`
is annotated with `Error::at(i, child)` and stops the loop. -/
def renderChildren (name : String) (kind : ElementKind) (i : Nat) :
    List Content → RenderResult
  | [] => ("", none)
  | child :: rest =>
    match renderChildOne name kind child with
    | (s, some e) => (s, some (e.at' i child))
    | (s, none) =>
      match renderChildren name kind (i + 1) rest with
      | (s2, e2) => (s ++ s2, e2)
termination_by cs => sizeOf cs
decreasing_by
  all_goals simp_wf
  all_goals
    (have h : 0 < sizeOf rest := by cases rest <;> simp_arith
     omega)
end

/-- `render_to_string` from `render.rs` for an element: the rendered
string on success, the error on failure (the partially written sink
is discarded). -/
def render_to_string (el : Element) : Except Err String :=
  match renderElement el with
  | (s, none) => .ok s
  | (_, some e) => .error e

/-! ## The builder layer (`element.rs`) -/

/-- Rust `str::to_ascii_lowercase`: lowercase the ASCII uppercase
letters, leave everything else alone.  Lean's `Char.toLower` lowers
exactly ASCII `A`-`Z`. -/
def toAsciiLowercase (s : String) : String :=
  String.mk (s.data.map Char.toLower)

/-- `Element::new` from `element.rs`: the tag name is ASCII-lowercased
unless the kind is `Foreign`; attributes and children start empty. -/
def Element.new (name : String) (kind : ElementKind) : Element :=
  .mk (if kind ≠ ElementKind.Foreign then toAsciiLowercase name else name) kind [] []

/-- `Attr` from `element.rs`: name, value, and the optional separator
of `Attr::append`. -/
structure Attr where
  name : String
  value : String
  appendBy : Option String

/-- `Attr::new` from `element.rs`: create-or-replace semantics. -/
def Attr.new (name value : String) : Attr :=
  ⟨name, value, none⟩

/-- `Attr::append` from `element.rs`: create-or-append semantics. -/
def Attr.append (name value separator : String) : Attr :=
  ⟨name, value, some separator⟩

/-- The `BTreeMap` entry update of `impl ElementComponent for Attr`
on the sorted association list: insert before the first larger key;
on an equal key, replace the value (`append_by = None`) or append
separator-then-value to it (`append_by = Some`). -/
def insertAttr (a : Attr) : List (String × String) → List (String × String)
  | [] => [(a.name, a.value)]
  | (k, v) :: rest =>
      if a.name < k then (a.name, a.value) :: (k, v) :: rest
      else if a.name = k then
        (match a.appendBy with
         | none => (k, a.value) :: rest
         | some sep => (k, v ++ sep ++ a.value) :: rest)
      else (k, v) :: insertAttr a rest

/-- `impl ElementComponent for Attr` (`add_to_element`) from
`element.rs`: lowercase the attribute name unless the element's kind
is `Foreign`, then update the attribute map. -/
def addAttr (a : Attr) (el : Element) : Element :=
  let a' := if el.kind ≠ ElementKind.Foreign then { a with name := toAsciiLowercase a.name } else a
  .mk el.name el.kind (insertAttr a' el.attributes) el.children

/-- Adding a child (`impl<T: Into<Content>> ElementComponent for T`):
push onto the end of `children`. -/
def addChild (c : Content) (el : Element) : Element :=
  .mk el.name el.kind el.attributes (el.children ++ [c])

/-- The attribute list is in strictly increasing key order (the
invariant of the `BTreeMap` iteration the renderer sees). -/
def attrsSorted (attrs : List (String × String)) : Prop :=
  attrs.Pairwise (fun p q => p.1 < q.1)


/-- The property, taken from the claim's wording, that position `i` of
`cs` starts a forbidden closing-tag-like occurrence: `"</"`, followed
by exactly `N` characters whose ASCII-lowercasing is `tl`, followed by
at least one more character that is a raw-text delimiter. -/
def scanBadAt (tl : List Char) (N : Nat) (cs : List Char) (i : Nat) : Prop :=
  ((cs.drop i).take 2 = ['<', '/']) ∧
  (((cs.drop (i + 2)).take N).length = N) ∧
  (((cs.drop (i + 2)).take N).map Char.toLower = tl) ∧
  (∃ c, (cs.drop (i + 2 + N)).head? = some c ∧ isRawTextDelim c = true)

/-- Position `i` of `text` holds an occurrence of `"</"` followed by
`tag_name`'s character count of characters that ASCII-case-insensitively
equal `tag_name`, followed by at least one more character that is tab,
LF, FF, CR, space, `>` or `/`. -/
def rawTextBadAt (tag_name text : String) (i : Nat) : Prop :=
  scanBadAt (tag_name.data.map Char.toLower) tag_name.data.length text.data i

/-! ## Helper lemmas -/

/-- Text escaping is applied character by character, so it distributes
over string concatenation. -/
theorem render_text_append (s t : String) :
    render_text (s ++ t) = render_text s ++ render_text t := by
  apply String.ext
  simp [render_text]

/-- Attribute-value escaping of the value body distributes over string
concatenation. -/
theorem attr_escape_append (s t : String) :
    String.join ((s ++ t).data.map escapeAttrChar) =
      String.join (s.data.map escapeAttrChar) ++ String.join (t.data.map escapeAttrChar) := by
  apply String.ext
  simp

/-! ## Claim theorems -/

/-- C3: for every `Void`-kind element with a valid tag name, valid
attribute names and at least one child, `render` always fails, and the
failure cause is `InvalidChild`, annotated with the index of the first
child (index `0`). -/
theorem void_with_child_fails (name : String) (attrs : List (String × String))
    (c : Content) (cs : List Content)
    (h1 : is_valid_tag_name name = true) (h2 : firstInvalidAttr attrs = none) :
    (renderElement (.mk name .Void attrs (c :: cs))).2 =
      some ⟨[pathSegment 0 c], ErrorCause.InvalidChild⟩ := by
  simp [renderElement, h1, h2, renderChildren, renderChildOne, Err.at', Err.new]

/-- Witness for C3's theorem at a concrete input: an `input` element
with a text child. -/
theorem void_with_child_fails_witness :
    (renderElement (.mk "input" .Void [] [.Text "x"])).2 =
      some ⟨["0"], ErrorCause.InvalidChild⟩ := by
  have h := void_with_child_fails "input" [] (.Text "x") [] (by decide) rfl
  simpa [pathSegment] using h

/-- C4: under a `RawText`-kind element, a `Raw` child is written
verbatim; a `Text` child `t` is written with no escaping when
`is_valid_raw_text name t` holds and otherwise fails with
`InvalidRawText t`; a `Comment` or `Element` child fails with
`InvalidChild`.  The `script` scenarios from the specification are
included. -/
theorem rawtext_child_dispatch (name : String) :
    (∀ t, renderChildOne name .RawText (.Raw t) = (t, none)) ∧
    (∀ t, is_valid_raw_text name t = true →
      renderChildOne name .RawText (.Text t) = (t, none)) ∧
    (∀ t, is_valid_raw_text name t = false →
      renderChildOne name .RawText (.Text t) = ("", some (Err.new (.InvalidRawText t)))) ∧
    (∀ t, renderChildOne name .RawText (.Comment t) = ("", some (Err.new .InvalidChild))) ∧
    (∀ el, renderChildOne name .RawText (.Element el) = ("", some (Err.new .InvalidChild))) ∧
    renderElement (.mk "script" .RawText [] [.Text "foo <script> & </style> bar"]) =
      ("<script>foo <script> & </style> bar</script>", none) ∧
    (renderElement (.mk "script" .RawText [] [.Text "hello </script> world"])).2 =
      some ⟨["0"], ErrorCause.InvalidRawText "hello </script> world"⟩ := by
  refine ⟨fun t => ?_, fun t h => ?_, fun t h => ?_, fun t => ?_, fun el => ?_, ?_, ?_⟩
  · simp [renderChildOne]
  · simp [renderChildOne, h]
  · simp [renderChildOne, h]
  · simp [renderChildOne]
  · simp [renderChildOne]
  · simp +decide [renderElement, renderChildren, renderChildOne, renderAttrs, closeTag]
  · simp +decide [renderElement, renderChildren, renderChildOne, Err.at', Err.new, pathSegment]

/-- Witness for C4's theorem: concrete valid and invalid raw texts
under tag `script`. -/
theorem rawtext_child_dispatch_witness :
    renderChildOne "script" .RawText (.Text "foo bar") = ("foo bar", none) ∧
    renderChildOne "script" .RawText (.Text "a </script> b") =
      ("", some (Err.new (.InvalidRawText "a </script> b"))) := by
  exact ⟨(rawtext_child_dispatch "script").2.1 "foo bar" (by decide),
         (rawtext_child_dispatch "script").2.2.1 "a </script> b" (by decide)⟩

/-- C5: text escaping maps each character independently -- `&` to
`&amp;`, `<` to `&lt;`, `>` to `&gt;`, everything else to itself (it
distributes over concatenation and acts as stated on one-character
strings) -- and a `Text` child of an `EscapableRawText` element is
rendered through exactly this map; the `textarea` scenario is
included. -/
theorem text_escaping_char_map :
    (∀ s t, render_text (s ++ t) = render_text s ++ render_text t) ∧
    (render_text "&" = "&amp;") ∧
    (render_text "<" = "&lt;") ∧
    (render_text ">" = "&gt;") ∧
    (∀ c, c ≠ '&' → c ≠ '<' → c ≠ '>' →
      render_text (String.singleton c) = String.singleton c) ∧
    (∀ name t, renderChildOne name .EscapableRawText (.Text t) = (render_text t, none)) ∧
    renderElement (.mk "textarea" .EscapableRawText [] [.Text "foo <p> & bar"]) =
      ("<textarea>foo &lt;p&gt; &amp; bar</textarea>", none) := by
  refine ⟨render_text_append, by decide, by decide, by decide,
    fun c h1 h2 h3 => ?_, fun n t => ?_, ?_⟩
  · apply String.ext
    simp [render_text, String.singleton, escapeTextChar, h1, h2, h3]
  · simp [renderChildOne]
  · simp +decide [renderElement, renderChildren, renderChildOne, renderAttrs, closeTag]

/-- Witness for C5's theorem: concatenation instance and an unescaped
character. -/
theorem text_escaping_char_map_witness :
    render_text ("foo " ++ "<p>") = render_text "foo " ++ render_text "<p>" ∧
    render_text (String.singleton 'x') = String.singleton 'x' := by
  exact ⟨text_escaping_char_map.1 "foo " "<p>",
         text_escaping_char_map.2.2.2.2.1 'x' (by decide) (by decide) (by decide)⟩

/-- C7: for every element with a valid tag name, valid attribute names
and no children, `render` succeeds, and the output after the
attributes ends `>` for `Void`, ` />` for `Foreign`, and `></name>`
for every other kind; the empty `head` and empty `input` scenarios are
included. -/
theorem empty_children_closing (name : String) (kind : ElementKind)
    (attrs : List (String × String))
    (h1 : is_valid_tag_name name = true) (h2 : firstInvalidAttr attrs = none) :
    (kind = .Void →
      renderElement (.mk name kind attrs []) = ("<" ++ name ++ renderAttrs attrs ++ ">", none)) ∧
    (kind = .Foreign →
      renderElement (.mk name kind attrs []) = ("<" ++ name ++ renderAttrs attrs ++ " />", none)) ∧
    (kind ≠ .Void → kind ≠ .Foreign →
      renderElement (.mk name kind attrs []) =
        ("<" ++ name ++ renderAttrs attrs ++ ("></" ++ name ++ ">"), none)) ∧
    renderElement (Element.new "head" .Normal) = ("<head></head>", none) ∧
    renderElement (Element.new "input" .Void) = ("<input>", none) := by
  refine ⟨?_, ?_, ?_, ?_, ?_⟩
  · rintro rfl; simp [renderElement, h1, h2, closeEmpty]
  · rintro rfl; simp [renderElement, h1, h2, closeEmpty]
  · intro hv hf
    cases kind <;> simp_all [renderElement, closeEmpty]
  · simp +decide [Element.new, renderElement, renderAttrs, closeEmpty, toAsciiLowercase]
  · simp +decide [Element.new, renderElement, renderAttrs, closeEmpty, toAsciiLowercase]

/-- Witness for C7's theorem: all three closing forms at concrete
elements. -/
theorem empty_children_closing_witness :
    renderElement (.mk "br" .Void [] []) = ("<br>", none) ∧
    renderElement (.mk "svg" .Foreign [] []) = ("<svg />", none) ∧
    renderElement (.mk "p" .Normal [] []) = ("<p></p>", none) := by
  have h := empty_children_closing "br" .Void [] (by decide) rfl
  have h2 := empty_children_closing "svg" .Foreign [] (by decide) rfl
  have h3 := empty_children_closing "p" .Normal [] (by decide) rfl
  refine ⟨?_, ?_, ?_⟩
  · simpa [renderAttrs] using h.1 rfl
  · simpa [renderAttrs] using h2.2.1 rfl
  · simpa [renderAttrs] using h3.2.2.1 (by decide) (by decide)

/-- C10: when rendering an element fails because its own tag name or
one of its own attribute names is invalid, the error carries no path
segments (its path string is `"/"`) and nothing has been written to
the sink. -/
theorem own_name_failure_empty_path (name : String) (kind : ElementKind)
    (attrs : List (String × String)) (children : List Content) :
    (is_valid_tag_name name = false →
      renderElement (.mk name kind attrs children) = ("", some (Err.new (.InvalidTagName name))) ∧
      (Err.new (ErrorCause.InvalidTagName name)).path = "/") ∧
    (∀ bad, is_valid_tag_name name = true → firstInvalidAttr attrs = some bad →
      renderElement (.mk name kind attrs children) = ("", some (Err.new (.InvalidAttrName bad))) ∧
      (Err.new (ErrorCause.InvalidAttrName bad)).path = "/") := by
  refine ⟨fun h => ⟨?_, ?_⟩, fun bad hv ha => ⟨?_, ?_⟩⟩
  · simp [renderElement, h]
  · simp [Err.new, Err.path]
  · simp [renderElement, hv, ha]
  · simp [Err.new, Err.path]

/-- Witness for C10's theorem: an invalid tag name and an invalid
attribute name at concrete inputs. -/
theorem own_name_failure_empty_path_witness :
    (renderElement (.mk "1bad" .Normal [] [.Text "x"]) =
      ("", some (Err.new (.InvalidTagName "1bad"))) ∧
      (Err.new (ErrorCause.InvalidTagName "1bad")).path = "/") ∧
    (renderElement (.mk "p" .Normal [("x y", "1")] []) =
      ("", some (Err.new (.InvalidAttrName "x y"))) ∧
      (Err.new (ErrorCause.InvalidAttrName "x y")).path = "/") := by
  exact ⟨(own_name_failure_empty_path "1bad" .Normal [] [.Text "x"]).1 (by decide),
         (own_name_failure_empty_path "p" .Normal [("x y", "1")] []).2 "x y" (by decide) (by decide)⟩


/-- Every entry of `insertAttr a l` either has key `a.name` or was
already in `l`. -/
theorem insertAttr_mem (a : Attr) :
    ∀ (l : List (String × String)) (x : String × String),
      x ∈ insertAttr a l → x.1 = a.name ∨ x ∈ l := by
  intro l
  induction l with
  | nil =>
    intro x hx
    simp [insertAttr] at hx
    simp [hx]
  | cons p rest ih =>
    intro x hx
    obtain ⟨k, v⟩ := p
    simp only [insertAttr] at hx
    by_cases h1 : a.name < k
    · rw [if_pos h1] at hx
      rcases List.mem_cons.mp hx with h | h
      · left; rw [h]
      · right; exact h
    · rw [if_neg h1] at hx
      by_cases h2 : a.name = k
      · rw [if_pos h2] at hx
        cases ha : a.appendBy with
        | none =>
          simp only [ha] at hx
          rcases List.mem_cons.mp hx with h | h
          · left; rw [h, ← h2]
          · right; exact List.mem_cons_of_mem _ h
        | some sep =>
          simp only [ha] at hx
          rcases List.mem_cons.mp hx with h | h
          · left; rw [h, ← h2]
          · right; exact List.mem_cons_of_mem _ h
      · rw [if_neg h2] at hx
        rcases List.mem_cons.mp hx with h | h
        · right; exact List.mem_cons.mpr (Or.inl h)
        · rcases ih x h with h' | h'
          · left; exact h'
          · right; exact List.mem_cons_of_mem _ h'

/-- `insertAttr` preserves the strictly-sorted-keys invariant of the
attribute map. -/
theorem insertAttr_sorted (a : Attr) :
    ∀ (l : List (String × String)), attrsSorted l → attrsSorted (insertAttr a l) := by
  intro l
  induction l with
  | nil => intro _; simp [insertAttr, attrsSorted]
  | cons p rest ih =>
    intro hs
    obtain ⟨k, v⟩ := p
    rw [attrsSorted, List.pairwise_cons] at hs
    obtain ⟨hall, hrest⟩ := hs
    rw [attrsSorted]
    simp only [insertAttr]
    by_cases h1 : a.name < k
    · rw [if_pos h1, List.pairwise_cons]
      constructor
      · intro x hx
        rcases List.mem_cons.mp hx with h | h
        · rw [h]; exact h1
        · exact lt_trans h1 (hall x h)
      · rw [List.pairwise_cons]
        exact ⟨hall, hrest⟩
    · rw [if_neg h1]
      by_cases h2 : a.name = k
      · rw [if_pos h2]
        cases ha : a.appendBy with
        | none =>
          simp only [ha]
          rw [List.pairwise_cons]
          exact ⟨hall, hrest⟩
        | some sep =>
          simp only [ha]
          rw [List.pairwise_cons]
          exact ⟨hall, hrest⟩
      · rw [if_neg h2, List.pairwise_cons]
        constructor
        · intro x hx
          rcases insertAttr_mem a rest x hx with h | h
          · rw [h]
            rcases lt_trichotomy a.name k with hlt | heq | hgt
            · exact absurd hlt h1
            · exact absurd heq h2
            · exact hgt
          · exact hall x h
        · exact ih hrest



/-- C6: attributes are emitted in the order of the (sorted) attribute
map, one per entry in list order; an empty-valued attribute is emitted
as a space plus its name only; a non-empty value `v` is emitted as a
space, the name, `=`, `"`, then `v` with each `"` replaced by
`&quot;` and every other character unchanged, then a closing `"`; and
`insertAttr` keeps the map sorted.  A concrete element with all three
shapes is included. -/
theorem attribute_emission :
    (∀ a l, attrsSorted l → attrsSorted (insertAttr a l)) ∧
    (∀ n, renderAttribute n "" = " " ++ n) ∧
    (∀ n v, v ≠ "" → renderAttribute n v =
      " " ++ n ++ "=" ++ ("\"" ++ String.join (v.data.map escapeAttrChar) ++ "\"")) ∧
    (∀ s t : String, String.join ((s ++ t).data.map escapeAttrChar) =
      String.join (s.data.map escapeAttrChar) ++ String.join (t.data.map escapeAttrChar)) ∧
    (String.join ("\"".data.map escapeAttrChar) = "&quot;") ∧
    (∀ c, c ≠ '"' → String.join ((String.singleton c).data.map escapeAttrChar) = String.singleton c) ∧
    (∀ n v rest, renderAttrs ((n, v) :: rest) = renderAttribute n v ++ renderAttrs rest) ∧
    renderElement (.mk "p" .Normal [("class", "y"), ("hidden", ""), ("id", "a\"b<&c")] []) =
      ("<p class=\"y\" hidden id=\"a&quot;b<&c\"></p>", none) := by
  refine ⟨fun a l => insertAttr_sorted a l, fun n => ?_, fun n v hv => ?_, attr_escape_append,
    by decide, fun c hc => ?_, fun n v rest => ?_, ?_⟩
  · simp [renderAttribute]
  · have hd : ¬ v.data.isEmpty := by
      cases v with
      | mk d =>
        intro hcon
        apply hv
        simp at hcon
        simp [hcon]
    simp only [renderAttribute, hd, render_attribute_value, if_false, Bool.false_eq_true,
      if_neg]
    apply String.ext
    simp
  · apply String.ext
    simp [String.singleton, escapeAttrChar, hc]
  · apply String.ext
    simp [renderAttrs]
  · simp +decide [renderElement, renderAttrs, renderAttribute, render_attribute_value,
      closeEmpty, firstInvalidAttr]

/-- Witness for C6's theorem: a sorted insertion, a non-empty
attribute value, and an unescaped character. -/
theorem attribute_emission_witness :
    attrsSorted (insertAttr (Attr.new "id" "x") [("class", "y")]) ∧
    renderAttribute "id" "x" =
      " " ++ "id" ++ "=" ++ ("\"" ++ String.join ("x".data.map escapeAttrChar) ++ "\"") ∧
    String.join ((String.singleton 'a').data.map escapeAttrChar) = String.singleton 'a' := by
  exact ⟨attribute_emission.1 (Attr.new "id" "x") [("class", "y")] (by simp [attrsSorted]),
         attribute_emission.2.2.1 "id" "x" (by decide),
         attribute_emission.2.2.2.2.2.1 'a' (by decide)⟩


/-- C9: element construction ASCII-lowercases the tag name unless the
kind is `Foreign`, and attaching an attribute lowercases its name
unless the element's kind is `Foreign`; a `Normal` element built with
name `"HTML"` and attribute `"LANG"` with value `"EN"` renders exactly
as `<html lang="EN"></html>`. -/
theorem construction_lowercases_names :
    (∀ n k, k ≠ ElementKind.Foreign → (Element.new n k).name = toAsciiLowercase n) ∧
    (∀ n, (Element.new n ElementKind.Foreign).name = n) ∧
    (∀ a el, el.kind ≠ ElementKind.Foreign →
      (addAttr a el).attributes =
        insertAttr { a with name := toAsciiLowercase a.name } el.attributes) ∧
    (∀ a el, el.kind = ElementKind.Foreign →
      (addAttr a el).attributes = insertAttr a el.attributes) ∧
    renderElement (addAttr (Attr.new "LANG" "EN") (Element.new "HTML" .Normal)) =
      ("<html lang=\"EN\"></html>", none) := by
  refine ⟨fun n k h => ?_, fun n => ?_, fun a el h => ?_, fun a el h => ?_, ?_⟩
  · simp [Element.new, Element.name, h]
  · simp [Element.new, Element.name]
  · simp [addAttr, Element.attributes, h]
  · simp [addAttr, Element.attributes, h]
  · simp +decide [Element.new, addAttr, Attr.new, insertAttr, toAsciiLowercase,
      renderElement, renderAttrs, renderAttribute, render_attribute_value, closeEmpty]

/-- Witness for C9's theorem: the tag name and attribute name of the
scenario element are lowercased. -/
theorem construction_lowercases_names_witness :
    (Element.new "HTML" ElementKind.Normal).name = toAsciiLowercase "HTML" ∧
    (addAttr (Attr.new "LANG" "EN") (Element.new "HTML" ElementKind.Normal)).attributes =
      insertAttr { Attr.new "LANG" "EN" with name := toAsciiLowercase "LANG" }
        (Element.new "HTML" ElementKind.Normal).attributes := by
  exact ⟨construction_lowercases_names.1 "HTML" _ (by decide),
         construction_lowercases_names.2.2.1 (Attr.new "LANG" "EN") _ (by decide)⟩


/-- `replaceFrom` consumes a leftmost match and continues after the
replacement. -/
theorem replaceFrom_head_match (pat repl rest : List Char) (hne : pat ≠ []) :
    replaceFrom pat repl (pat ++ rest) = repl ++ replaceFrom pat repl rest := by
  cases pat with
  | nil => exact absurd rfl hne
  | cons p pt =>
    rw [show (p :: pt) ++ rest = p :: (pt ++ rest) from rfl, replaceFrom.eq_2]
    rw [dif_pos ⟨hne, by simp⟩]
    simp [List.drop_left]

/-- `replaceFrom` keeps a character that does not start a match and
scans on. -/
theorem replaceFrom_head_nomatch (pat repl : List Char) (c : Char) (cs : List Char)
    (h : ¬ pat <+: (c :: cs)) :
    replaceFrom pat repl (c :: cs) = c :: replaceFrom pat repl cs := by
  rw [replaceFrom.eq_2, dif_neg]
  intro hcon
  exact h (List.isPrefixOf_iff_prefix.mp hcon.2)

/-- `replaceFrom` is the identity on text without any occurrence of
the pattern. -/
theorem replaceFrom_no_occurrence (pat repl : List Char) :
    ∀ cs : List Char, (¬ ∃ pre post, cs = pre ++ pat ++ post) →
      replaceFrom pat repl cs = cs := by
  intro cs
  induction cs with
  | nil => intro _; rw [replaceFrom.eq_1]
  | cons c rest ih =>
    intro h
    rw [replaceFrom_head_nomatch]
    · rw [ih]
      intro hcon
      obtain ⟨pre, post, hpp⟩ := hcon
      exact h ⟨c :: pre, post, by simp [hpp]⟩
    · intro hcon
      obtain ⟨tail, htail⟩ := hcon
      exact h ⟨[], tail, by simp [← htail]⟩

/-- C8: rendering a `Comment` child always succeeds and writes
exactly the comment text transformed by, in order, the global
substring replacements `<!--`→`<!==`, `-->`→`==>`, `--!>`→`==!>`,
with a single space prepended when the replaced text starts with `>`
or `->` and a single space appended when it ends with `<!-`, and no
other escaping.  The replacement primitive is characterized by the
`replaceFrom` lemmas (leftmost match consumed, non-matches kept,
identity without occurrences), and concrete comments exercise every
rule. -/
theorem comment_rendering :
    (∀ name t, renderChildOne name .Normal (.Comment t) = (render_comment t, none)) ∧
    (∀ t, render_comment t =
      (if commentStartsBad
          (replaceAll "--!>" "==!>" (replaceAll "-->" "==>" (replaceAll "<!--" "<!==" t))).data
        then " " else "")
        ++ replaceAll "--!>" "==!>" (replaceAll "-->" "==>" (replaceAll "<!--" "<!==" t))
        ++ (if commentEndsBad
              (replaceAll "--!>" "==!>" (replaceAll "-->" "==>" (replaceAll "<!--" "<!==" t))).data
            then " " else "")) ∧
    (∀ (pat repl rest : List Char), pat ≠ [] →
      replaceFrom pat repl (pat ++ rest) = repl ++ replaceFrom pat repl rest) ∧
    (∀ (pat repl : List Char) (c : Char) (cs : List Char), ¬ pat <+: (c :: cs) →
      replaceFrom pat repl (c :: cs) = c :: replaceFrom pat repl cs) ∧
    (∀ (pat repl cs : List Char), (¬ ∃ pre post, cs = pre ++ pat ++ post) →
      replaceFrom pat repl cs = cs) ∧
    render_comment "a<!--b-->c--!>d" = "a<!==b==>c==!>d" ∧
    render_comment ">x" = " >x" ∧
    render_comment "->x" = " ->x" ∧
    render_comment "x<!-" = "x<!- " ∧
    render_comment "plain -- text" = "plain -- text" := by
  refine ⟨fun name t => ?_, fun t => rfl, replaceFrom_head_match,
    replaceFrom_head_nomatch, replaceFrom_no_occurrence, ?_, ?_, ?_, ?_, ?_⟩
  · simp [renderChildOne, renderContent]
  all_goals
    simp +decide [render_comment, replaceAll, replaceFrom, commentStartsBad, commentEndsBad]

/-- Witness for C8's theorem: the replacement lemmas applied at a
concrete pattern and text. -/
theorem comment_rendering_witness :
    replaceFrom "-->".data "==>".data ("-->".data ++ "x".data) =
      "==>".data ++ replaceFrom "-->".data "==>".data "x".data ∧
    replaceFrom "-->".data "==>".data "xy".data = "xy".data := by
  refine ⟨comment_rendering.2.2.1 "-->".data "==>".data "x".data (by decide),
          comment_rendering.2.2.2.2.1 "-->".data "==>".data "xy".data ?_⟩
  intro hcon
  obtain ⟨pre, post, h⟩ := hcon
  have hl := congrArg List.length h
  simp at hl
  omega


/-- C1 counterexample: for the claimed scenario (a `form` with a text
child and then a void `input` holding an element child) the error path
produced by the code as written is `/1[input]/0[b]` -- `Error::at`
formats element segments with square brackets and the innermost frame
also names the element child -- which differs from the claimed
`/1(input)/0`. -/
theorem form_input_path_cex :
    (renderElement (.mk "form" .Normal [] [.Text "greeting: ",
        .Element (.mk "input" .Void [] [.Element (.mk "b" .Normal [] [])])])).2.map Err.path =
      some "/1[input]/0[b]" ∧
    ("/1[input]/0[b]" : String) ≠ "/1(input)/0" := by
  constructor
  · simp +decide [renderElement, renderChildren, renderChildOne, renderContent, renderAttrs,
      Err.at', Err.new, pathSegment, Err.path, Element.name]
  · decide

/-- C1 amended: for every `form` element whose children are a `Text`
child and then a `Void`-kind `input` element whose only child is an
element named `bname`, rendering fails with `InvalidChild`; each
ancestor frame appends one segment of the form `index[tagname]` (as
`Error::at` formats it) for `Element` children or the bare index
otherwise, and the displayed path is `/1[input]/0[bname]`. -/
theorem form_input_path (t bname : String) (battrs : List (String × String))
    (bch : List Content) :
    renderElement (.mk "form" .Normal [] [.Text t,
        .Element (.mk "input" .Void [] [.Element (.mk bname .Normal battrs bch)])]) =
      ("<form>" ++ render_text t ++ "<input>",
        some ⟨["0[" ++ bname ++ "]", "1[input]"], ErrorCause.InvalidChild⟩) ∧
    Err.path ⟨["0[" ++ bname ++ "]", "1[input]"], ErrorCause.InvalidChild⟩ =
      "/1[input]/0[" ++ bname ++ "]" := by
  constructor
  · simp +decide [renderElement, renderChildren, renderChildOne, renderContent, renderAttrs,
      Err.at', Err.new, pathSegment, Element.name, firstInvalidAttr, closeTag,
      show toString (0 : Nat) = "0" from rfl, show toString (1 : Nat) = "1" from rfl]
    apply String.ext
    simp
  · apply String.ext
    simp [Err.path]


/-- Shifting a bad-occurrence position past a leading character. -/
theorem scanBadAt_shift (tl : List Char) (N : Nat) (a : Char) (cs : List Char) (i : Nat) :
    scanBadAt tl N (a :: cs) (i + 1) ↔ scanBadAt tl N cs i := by
  unfold scanBadAt
  have h1 : (a :: cs).drop (i + 1) = cs.drop i := rfl
  have h2 : (a :: cs).drop (i + 1 + 2) = cs.drop (i + 2) := rfl
  have h3 : (a :: cs).drop (i + 1 + 2 + N) = cs.drop (i + 2 + N) := by
    have he : i + 1 + 2 + N = (i + 2 + N) + 1 := by omega
    rw [he, List.drop_succ_cons]
  rw [h1, h2, h3]

/-- A list starts with `['<', '/']` iff its head is `'<'` and the
next character is `'/'`. -/
theorem take_two_lt_slash (c : Char) (rest : List Char) :
    ((c :: rest).take 2 = ['<', '/']) ↔ (c = '<' ∧ rest.head? = some '/') := by
  cases rest with
  | nil => simp
  | cons d ds => simp [List.take]

/-- Splitting an existential over naturals at zero. -/
theorem exists_nat_split (P : Nat → Prop) : (∃ i, P i) ↔ P 0 ∨ ∃ j, P (j + 1) := by
  constructor
  · rintro ⟨i, hi⟩
    cases i with
    | zero => exact Or.inl hi
    | succ j => exact Or.inr ⟨j, hi⟩
  · rintro (h | ⟨j, hj⟩)
    · exact ⟨0, h⟩
    · exact ⟨j + 1, hj⟩

/-- `checkOcc` rejects exactly when the candidate has full length,
matches the lowered tag name, and is followed by a delimiter. -/
theorem checkOcc_false_iff (tl : List Char) (N : Nat) (after : List Char)
    (htl : tl.length = N) :
    checkOcc tl N after = false ↔
      ((after.take N).length = N ∧ (after.take N).map Char.toLower = tl ∧
        ∃ c, (after.drop N).head? = some c ∧ isRawTextDelim c = true) := by
  unfold checkOcc
  by_cases hm : (after.take N).map Char.toLower = tl
  · have hlen : (after.take N).length = N := by
      have h := congrArg List.length hm
      simpa [htl] using h
    rw [if_pos hm]
    simp only [hlen, hm, eq_self_iff_true, true_and]
    cases hh : (after.drop N).head? with
    | none => simp [hh]
    | some ch => simp [hh]
  · rw [if_neg hm]
    constructor
    · intro h
      simp at h
    · rintro ⟨-, hm', -⟩
      exact absurd hm' hm

/-- A bad occurrence at position `0` of a text starting with `"</"`. -/
theorem scanBadAt_zero_iff (tl : List Char) (N : Nat) (ds : List Char) :
    scanBadAt tl N ('<' :: '/' :: ds) 0 ↔
      ((ds.take N).length = N ∧ (ds.take N).map Char.toLower = tl ∧
        ∃ c, (ds.drop N).head? = some c ∧ isRawTextDelim c = true) := by
  unfold scanBadAt
  have h0 : ('<' :: '/' :: ds).drop 0 = '<' :: '/' :: ds := rfl
  have h2 : ('<' :: '/' :: ds).drop (0 + 2) = ds := rfl
  have h3 : ('<' :: '/' :: ds).drop (0 + 2 + N) = ds.drop N := by
    have he : 0 + 2 + N = N + 1 + 1 := by omega
    rw [he, List.drop_succ_cons, List.drop_succ_cons]
  rw [h0, h2, h3]
  simp

/-- The scan returns `false` exactly when some position starts a
forbidden closing-tag-like occurrence. -/
theorem rawTextScan_false_iff (tl : List Char) (N : Nat) (htl : tl.length = N) :
    ∀ cs : List Char, rawTextScan tl N cs = false ↔ ∃ i, scanBadAt tl N cs i := by
  intro cs
  induction cs with
  | nil =>
    constructor
    · intro h
      simp [rawTextScan] at h
    · rintro ⟨i, hbad⟩
      obtain ⟨h1, -, -, -⟩ := hbad
      simp at h1
  | cons c rest ih =>
    rw [rawTextScan, Bool.and_eq_false_iff, ih,
      exists_nat_split (fun i => scanBadAt tl N (c :: rest) i)]
    have hshift : (∃ j, scanBadAt tl N (c :: rest) (j + 1)) ↔ ∃ j, scanBadAt tl N rest j :=
      exists_congr (fun j => scanBadAt_shift tl N c rest j)
    rw [hshift]
    refine or_congr ?_ Iff.rfl
    by_cases hc : c = '<' ∧ rest.head? = some '/'
    · rw [if_pos hc]
      obtain ⟨hceq, hhd⟩ := hc
      cases rest with
      | nil => simp at hhd
      | cons d ds =>
        have hd : d = '/' := by simpa using hhd
        subst hd
        subst hceq
        simp only [List.tail_cons]
        rw [checkOcc_false_iff tl N ds htl, scanBadAt_zero_iff]
    · rw [if_neg hc]
      constructor
      · intro h
        simp at h
      · intro hbad
        obtain ⟨h1, -, -, -⟩ := hbad
        exact absurd ((take_two_lt_slash c rest).mp (by simpa using h1)) hc

/-- A text shorter than the tag name plus two can never contain a
forbidden occurrence (any candidate is too short to match). -/
theorem rawTextScan_short (tl : List Char) (N : Nat) (htl : tl.length = N) :
    ∀ cs : List Char, cs.length ≤ N + 1 → rawTextScan tl N cs = true := by
  intro cs
  induction cs with
  | nil => intro _; rfl
  | cons c rest ih =>
    intro hlen
    rw [rawTextScan, Bool.and_eq_true]
    constructor
    · by_cases hc : c = '<' ∧ rest.head? = some '/'
      · rw [if_pos hc]
        obtain ⟨-, hhd⟩ := hc
        cases rest with
        | nil => simp at hhd
        | cons d ds =>
          have hshort : ds.length < N := by
            simp at hlen
            omega
          unfold checkOcc
          rw [if_neg]
          intro hm
          have hl := congrArg List.length hm
          simp [htl] at hl
          omega
      · rw [if_neg hc]
    · exact ih (by simp at hlen ⊢; omega)

/-- C2: `is_valid_raw_text tag_name text` returns `false` iff `text`
contains an occurrence of `"</"` followed by `tag_name`'s character
count of characters that ASCII-case-insensitively equal `tag_name`,
followed by at least one more character that is tab, LF, FF, CR,
space, `>` or `/`; in particular the text `"</" ++ tag_name`, ending
with no character after the tag name, is valid. -/
theorem raw_text_validity (tag_name : String) :
    (∀ text, is_valid_raw_text tag_name text = false ↔ ∃ i, rawTextBadAt tag_name text i) ∧
    is_valid_raw_text tag_name ("</" ++ tag_name) = true := by
  constructor
  · intro text
    exact rawTextScan_false_iff (tag_name.data.map Char.toLower) tag_name.data.length
      (by simp) text.data
  · show rawTextScan _ _ _ = true
    have hdata : ("</" ++ tag_name).data = '<' :: '/' :: tag_name.data := by
      simp [String.data_append]
    rw [hdata, rawTextScan, Bool.and_eq_true]
    constructor
    · rw [if_pos ⟨rfl, rfl⟩]
      unfold checkOcc
      simp only [List.tail_cons, List.take_length, List.drop_length]
      simp
    · rw [rawTextScan, Bool.and_eq_true]
      constructor
      · rw [if_neg]
        simp
      · exact rawTextScan_short _ _ (by simp) _ (by simp)



/-- Witness for C2's theorem: the claimed scenario strings under tag
`script`. -/
theorem raw_text_validity_witness :
    is_valid_raw_text "script" "hello </script> world" = false ∧
    is_valid_raw_text "script" ("</" ++ "script") = true := by
  refine ⟨((raw_text_validity "script").1 "hello </script> world").mpr
      ⟨6, ?_, ?_, ?_, ⟨'>', ?_, ?_⟩⟩,
    (raw_text_validity "script").2⟩ <;> decide

end El
